import Mathlib

/-!
Shallow embedding of the consensus and Sapling-verification layers of the
`libyec` repository (files `zcash_primitives/src/consensus.rs` and
`zcash_proofs/src/sapling/verifier.rs`), together with theorems checking the
natural-language specification against it.

Block heights are `u32` in the source; they are embedded as `Nat` and the
guarded subtraction's panic is embedded as `none`.  Elliptic-curve points
(`jubjub::ExtendedPoint`) are an external collaborator and are embedded as an
arbitrary additive commutative group together with abstract collaborator
functions (small-order test, byte encoding, affine conversion, signature and
proof verification).
-/

/-! ## Consensus layer: `zcash_primitives/src/consensus.rs` -/

/-- Embedding of the guarded `Sub<u32> for BlockHeight` implementation.
The source panics ("Subtraction resulted in negative block height.") when
`other > self.0`; the panic is embedded as `none`. -/
def BlockHeight.sub_u32 (self other : Nat) : Option Nat :=
  if other > self then none else some (self - other)

/-- The `NetworkUpgrade` enum (default build: the `zfuture` feature is off,
so the `ZFuture` variant is absent). -/
inductive NetworkUpgrade where
  | Overwinter
  | Sapling
  | Ycash
  | Blossom
  | Heartwood
  | Canopy
deriving DecidableEq

/-- The `BranchId` enum (default build, without `ZFuture`). -/
inductive BranchId where
  | Sprout
  | Overwinter
  | Sapling
  | Ycash
  | Blossom
  | Heartwood
  | Canopy
deriving DecidableEq

/-- The two closed network variants of the `Network` dispatcher enum. -/
inductive Network where
  | MainNetwork
  | TestNetwork
deriving DecidableEq

/-- Embedding of `impl Parameters for MainNetwork`, `activation_height`. -/
def MainNetwork.activation_height : NetworkUpgrade → Option Nat
  | .Overwinter => some 347500
  | .Sapling => some 419200
  | .Ycash => some 570000
  | .Blossom => some 10000000
  | .Heartwood => some 20000000
  | .Canopy => some 30000000

/-- Embedding of `impl Parameters for TestNetwork`, `activation_height`. -/
def TestNetwork.activation_height : NetworkUpgrade → Option Nat
  | .Overwinter => some 207500
  | .Sapling => some 280000
  | .Ycash => some 510248
  | .Blossom => some 10000000
  | .Heartwood => some 20000000
  | .Canopy => some 30000000

/-- Embedding of `impl Parameters for Network`, `activation_height`
(dispatch to the per-network tables). -/
def Network.activation_height : Network → NetworkUpgrade → Option Nat
  | .MainNetwork, nu => MainNetwork.activation_height nu
  | .TestNetwork, nu => TestNetwork.activation_height nu

/-- Embedding of the provided `Parameters::is_nu_active` method:
`self.activation_height(nu).map_or(false, |h| h <= height)`. -/
def Network.is_nu_active (p : Network) (nu : NetworkUpgrade) (height : Nat) : Bool :=
  ((p.activation_height nu).map (fun h => decide (h ≤ height))).getD false

/-- Embedding of `NetworkUpgrade::branch_id`. -/
def NetworkUpgrade.branch_id : NetworkUpgrade → BranchId
  | .Overwinter => BranchId.Overwinter
  | .Sapling => BranchId.Sapling
  | .Ycash => BranchId.Ycash
  | .Blossom => BranchId.Blossom
  | .Heartwood => BranchId.Heartwood
  | .Canopy => BranchId.Canopy

/-- Embedding of the `UPGRADES_IN_ORDER` constant slice. -/
def UPGRADES_IN_ORDER : List NetworkUpgrade :=
  [.Overwinter, .Sapling, .Ycash, .Blossom, .Heartwood, .Canopy]

/-- The loop body of `BranchId::for_height`: scan a list of upgrades,
returning the branch id of the first one active at `height`, else `Sprout`. -/
def BranchId.for_height_go (p : Network) (height : Nat) : List NetworkUpgrade → BranchId
  | [] => BranchId.Sprout
  | nu :: rest =>
      if p.is_nu_active nu height then nu.branch_id
      else BranchId.for_height_go p height rest

/-- Embedding of `BranchId::for_height`: iterate `UPGRADES_IN_ORDER` in
reverse, returning the branch id of the first active upgrade, and `Sprout`
when none is active. -/
def BranchId.for_height (p : Network) (height : Nat) : BranchId :=
  BranchId.for_height_go p height UPGRADES_IN_ORDER.reverse

/-- Embedding of `impl From<BranchId> for u32` (default build). -/
def BranchId.to_u32 : BranchId → Nat
  | .Sprout => 0
  | .Overwinter => 0x5ba81b19
  | .Sapling => 0x76b809bb
  | .Ycash => 0x374d694f
  | .Blossom => 0x2bb40e60
  | .Heartwood => 0xf5b9230b
  | .Canopy => 0xe9ff75a6

/-- Embedding of `impl TryFrom<u32> for BranchId` (default build): the match
on literal `u32` patterns becomes a chain of equality tests, with the
`&'static str` error embedded as an `Except String` error. -/
def BranchId.try_from_u32 (value : Nat) : Except String BranchId :=
  if value = 0 then .ok .Sprout
  else if value = 0x5ba81b19 then .ok .Overwinter
  else if value = 0x76b809bb then .ok .Sapling
  else if value = 0x374d694f then .ok .Ycash
  else if value = 0x2bb40e60 then .ok .Blossom
  else if value = 0xf5b9230b then .ok .Heartwood
  else if value = 0xe9ff75a6 then .ok .Canopy
  else .error "Unknown consensus branch ID"

/-! ## Sapling verifier: `zcash_proofs/src/sapling/verifier.rs` -/

/-- The modulus `r` of the BLS12-381 scalar field `bls12_381::Scalar`
(the public-input field of the Groth16 proofs). -/
def scalarModulus : Nat :=
  0x73eda753299d7d483339d80809a1d80553bda402fffe5bfeffffffff00000001

/-- The public-input field `bls12_381::Scalar`. -/
abbrev BlsScalar : Type := ZMod scalarModulus

/-- The constant `bls12_381::Scalar::CAPACITY` of the external field crate:
the number of bits that can always be packed into one field element,
`MODULUS_BITS - 1 = 255 - 1`. -/
def scalarCapacity : Nat := 254

/-- Embedding of `slice::chunks`: split a list into consecutive chunks of
length at most `n` (used with `n = scalarCapacity`, which is positive). -/
def chunksOf {α : Type} (n : Nat) (l : List α) : List (List α) :=
  if n = 0 ∨ l.length = 0 then []
  else l.take n :: chunksOf n (l.drop n)
termination_by l.length
decreasing_by
  simp only [List.length_drop]
  omega

/-- Embedding of `bellman::gadgets::multipack::bytes_to_bits_le`
(external collaborator): each byte contributes its 8 bits, least
significant first. -/
def bytes_to_bits_le (bytes : List Nat) : List Bool :=
  (bytes.map (fun v => (List.range 8).map (fun i => v.testBit i))).flatten

/-- The inner loop of `compute_multipacking`: fold one chunk of bits into a
field element, doubling the coefficient at every bit. -/
def packChunk (bits : List Bool) : BlsScalar :=
  (bits.foldl
    (fun (acc : BlsScalar × BlsScalar) bit =>
      (if bit then acc.1 + acc.2 else acc.1, acc.2 + acc.2))
    (0, 1)).1

/-- Embedding of `bellman::gadgets::multipack::compute_multipacking`
(external collaborator): chunk the bit sequence by the field capacity and
pack each chunk little-endian. -/
def compute_multipacking (bits : List Bool) : List BlsScalar :=
  (chunksOf scalarCapacity bits).map packChunk

/-- The fixed signature-verification generators used by the verifier
(`SPENDING_KEY_GENERATOR`, `VALUE_COMMITMENT_RANDOMNESS_GENERATOR`, from the
external `constants` module). -/
inductive SigGenerator where
  | spendingKeyGenerator
  | valueCommitmentRandomnessGenerator
deriving DecidableEq

/-- The external collaborators of the verifier, abstracted: curve-point
predicates and encodings over an arbitrary point group, the redjubjub
signature verifier (`PublicKey::verify_with_zip216`), the Groth16 proof
verifier (`bellman::groth16::verify_proof`, with `is_ok` already applied),
and the scalar multiplication of the balance generator used by
`compute_value_balance`. -/
structure SaplingOps (Point Sig Prf VK : Type) where
  is_small_order : Point → Bool
  pointBytes : Point → List Nat
  toAffine : Point → BlsScalar × BlsScalar
  verifySig : Point → List Nat → Sig → SigGenerator → Bool → Bool
  verifyProofOk : VK → Prf → List BlsScalar → Bool
  valueBalancePoint : Int → Point

/-- Embedding of the `SaplingVerificationContext` struct: the running sum of
value commitments and the malleability-policy flag. -/
structure SaplingVerificationContext (Point : Type) where
  cv_sum : Point
  zip216_enabled : Bool
deriving DecidableEq

/-- Embedding of `SaplingVerificationContext::new`: the running sum starts
at the identity point. -/
def SaplingVerificationContext.new (Point : Type) [AddCommGroup Point]
    (zip216_enabled : Bool) : SaplingVerificationContext Point :=
  { cv_sum := 0, zip216_enabled := zip216_enabled }

/-- Embedding of `SaplingVerificationContext::check_spend`.  The mutation of
`&mut self` is embedded as returning the new context; the
`assert_eq!(nullifier.len(), 2)` panic is embedded as a `none` result, a
`some` result being the returned boolean. -/
def check_spend {Point Sig Prf VK : Type} [AddCommGroup Point]
    (ops : SaplingOps Point Sig Prf VK)
    (ctx : SaplingVerificationContext Point)
    (cv : Point) (anchor : BlsScalar) (nullifier : List Nat) (rk : Point)
    (sighash_value : List Nat) (spend_auth_sig : Sig) (zkproof : Prf)
    (verifying_key : VK) :
    SaplingVerificationContext Point × Option Bool :=
  if ops.is_small_order cv || ops.is_small_order rk then (ctx, some false)
  else
    let ctx' : SaplingVerificationContext Point :=
      { ctx with cv_sum := ctx.cv_sum + cv }
    let data_to_be_signed := ops.pointBytes rk ++ sighash_value
    if ! ops.verifySig rk data_to_be_signed spend_auth_sig
        SigGenerator.spendingKeyGenerator ctx'.zip216_enabled then
      (ctx', some false)
    else
      match compute_multipacking (bytes_to_bits_le nullifier) with
      | [nf0, nf1] =>
          let rkA := ops.toAffine rk
          let cvA := ops.toAffine cv
          (ctx', some (ops.verifyProofOk verifying_key zkproof
            [rkA.1, rkA.2, cvA.1, cvA.2, anchor, nf0, nf1]))
      | _ => (ctx', none)

/-- Embedding of `SaplingVerificationContext::check_output`. -/
def check_output {Point Sig Prf VK : Type} [AddCommGroup Point]
    (ops : SaplingOps Point Sig Prf VK)
    (ctx : SaplingVerificationContext Point)
    (cv : Point) (cmu : BlsScalar) (epk : Point) (zkproof : Prf)
    (verifying_key : VK) :
    SaplingVerificationContext Point × Bool :=
  if ops.is_small_order cv || ops.is_small_order epk then (ctx, false)
  else
    let ctx' : SaplingVerificationContext Point :=
      { ctx with cv_sum := ctx.cv_sum - cv }
    let cvA := ops.toAffine cv
    let epkA := ops.toAffine epk
    (ctx', ops.verifyProofOk verifying_key zkproof
      [cvA.1, cvA.2, epkA.1, epkA.2, cmu])

/-- Modelled from the spec: the helper `compute_value_balance` lives in
`zcash_proofs/src/sapling/mod.rs`, which is not part of the provided
sources.  Per the spec it converts the declared signed bounded value balance
into its commitment under the fixed balance generator and fails immediately
when the declared value is outside the representable signed range (the
64-bit signed domain whose absolute value is representable, `|v| ≤ 2^63 - 1`);
the scalar multiplication itself is the abstract collaborator
`valueBalancePoint`. -/
def compute_value_balance {Point Sig Prf VK : Type}
    (ops : SaplingOps Point Sig Prf VK) (value_balance : Int) : Option Point :=
  if value_balance.natAbs ≤ 2 ^ 63 - 1 then
    some (ops.valueBalancePoint value_balance)
  else none

/-- Embedding of `SaplingVerificationContext::final_check` (which takes
`&self`: no context is returned because the source mutates nothing). -/
def final_check {Point Sig Prf VK : Type} [AddCommGroup Point]
    (ops : SaplingOps Point Sig Prf VK)
    (ctx : SaplingVerificationContext Point)
    (value_balance : Int) (sighash_value : List Nat) (binding_sig : Sig) :
    Bool :=
  match compute_value_balance ops value_balance with
  | none => false
  | some vb =>
      let bvk := ctx.cv_sum - vb
      let data_to_be_signed := ops.pointBytes bvk ++ sighash_value
      ops.verifySig bvk data_to_be_signed binding_sig
        SigGenerator.valueCommitmentRandomnessGenerator ctx.zip216_enabled

/-! ## Call sequences over one verification context -/

/-- One call to a `SaplingVerificationContext` method, with its arguments. -/
inductive SaplingCall (Point Sig Prf VK : Type) where
  | spend (cv : Point) (anchor : BlsScalar) (nullifier : List Nat) (rk : Point)
      (sighash_value : List Nat) (spend_auth_sig : Sig) (zkproof : Prf)
      (verifying_key : VK)
  | output (cv : Point) (cmu : BlsScalar) (epk : Point) (zkproof : Prf)
      (verifying_key : VK)
  | finalCheck (value_balance : Int) (sighash_value : List Nat)
      (binding_sig : Sig)

/-- Execute one call against a context, returning the context afterwards and
the call's result (`none` embedding the check_spend assertion panic). -/
def stepCall {Point Sig Prf VK : Type} [AddCommGroup Point]
    (ops : SaplingOps Point Sig Prf VK)
    (ctx : SaplingVerificationContext Point) :
    SaplingCall Point Sig Prf VK →
      SaplingVerificationContext Point × Option Bool
  | .spend cv anchor nullifier rk sighash_value spend_auth_sig zkproof vk =>
      check_spend ops ctx cv anchor nullifier rk sighash_value
        spend_auth_sig zkproof vk
  | .output cv cmu epk zkproof vk =>
      let r := check_output ops ctx cv cmu epk zkproof vk
      (r.1, some r.2)
  | .finalCheck value_balance sighash_value binding_sig =>
      (ctx, some (final_check ops ctx value_balance sighash_value binding_sig))

/-- Execute a sequence of calls, threading the context left to right and
collecting the individual results. -/
def runCalls {Point Sig Prf VK : Type} [AddCommGroup Point]
    (ops : SaplingOps Point Sig Prf VK)
    (ctx : SaplingVerificationContext Point) :
    List (SaplingCall Point Sig Prf VK) →
      SaplingVerificationContext Point × List (Option Bool)
  | [] => (ctx, [])
  | c :: cs =>
      let r := stepCall ops ctx c
      let rest := runCalls ops r.1 cs
      (rest.1, r.2 :: rest.2)

/-- The small-order guard of a call: `true` when the call's curve-point
arguments all pass the small-order rejection (vacuously for `finalCheck`,
which has no such guard). -/
def guardOk {Point Sig Prf VK : Type}
    (ops : SaplingOps Point Sig Prf VK) :
    SaplingCall Point Sig Prf VK → Bool
  | .spend cv _ _ rk _ _ _ _ =>
      !(ops.is_small_order cv || ops.is_small_order rk)
  | .output cv _ epk _ _ =>
      !(ops.is_small_order cv || ops.is_small_order epk)
  | .finalCheck _ _ _ => true

/-- The signed contribution of a call to the running sum: spend commitments
count positively, output commitments negatively. -/
def signedCv {Point Sig Prf VK : Type} [AddCommGroup Point] :
    SaplingCall Point Sig Prf VK → Point
  | .spend cv _ _ _ _ _ _ _ => cv
  | .output cv _ _ _ _ => -cv
  | .finalCheck _ _ _ => 0

/-- The spend value commitments of a call list, in order. -/
def spendCvs {Point Sig Prf VK : Type} :
    List (SaplingCall Point Sig Prf VK) → List Point :=
  List.filterMap (fun c => match c with
    | .spend cv _ _ _ _ _ _ _ => some cv
    | _ => none)

/-- The output value commitments of a call list, in order. -/
def outputCvs {Point Sig Prf VK : Type} :
    List (SaplingCall Point Sig Prf VK) → List Point :=
  List.filterMap (fun c => match c with
    | .output cv _ _ _ _ => some cv
    | _ => none)

/-- A concrete instantiation of the abstract collaborators over `Int` as the
point group, used to evaluate the verifier on concrete inputs: the
small-order points are exactly `0`, and the signature and proof verifiers
return the fixed booleans `sigOk` and `proofOk`. -/
def intOps (sigOk proofOk : Bool) : SaplingOps Int Unit Unit Unit :=
  { is_small_order := fun p => p == 0
    pointBytes := fun _ => []
    toAffine := fun _ => (0, 0)
    verifySig := fun _ _ _ _ _ => sigOk
    verifyProofOk := fun _ _ _ => proofOk
    valueBalancePoint := fun v => v }

/-- A concrete two-call sequence over `Int`: one spend of commitment `2`,
then one output of commitment `1`. -/
def wCallsA : List (SaplingCall Int Unit Unit Unit) :=
  [.spend 2 0 [] 3 [] () () (), .output 1 0 4 () ()]

/-- The swap of `wCallsA`: the output first, then the spend. -/
def wCallsB : List (SaplingCall Int Unit Unit Unit) :=
  [.output 1 0 4 () (), .spend 2 0 [] 3 [] () () ()]

/-! ## Theorems: consensus layer -/

/-- The boolean `is_nu_active` holds exactly when the upgrade's activation
height is defined and at most the queried height. -/
theorem is_nu_active_iff (p : Network) (nu : NetworkUpgrade) (h : Nat) :
    p.is_nu_active nu h = true ↔
      ∃ a, p.activation_height nu = some a ∧ a ≤ h := by
  cases hact : p.activation_height nu <;>
    simp [Network.is_nu_active, hact]

/-- The boolean `is_nu_active` fails exactly when the activation height is
absent or exceeds the queried height. -/
theorem is_nu_active_eq_false_iff (p : Network) (nu : NetworkUpgrade) (h : Nat) :
    p.is_nu_active nu h = false ↔
      ∀ a, p.activation_height nu = some a → ¬ a ≤ h := by
  cases hact : p.activation_height nu <;>
    simp [Network.is_nu_active, hact]

/-- The scan loop of `BranchId::for_height` returns `Sprout` when no list
element is active, and otherwise the branch id of the first active element,
all earlier elements being inactive. -/
theorem for_height_go_first_active (p : Network) (h : Nat) :
    ∀ l : List NetworkUpgrade,
      ((∀ nu ∈ l, p.is_nu_active nu h = false) ∧
        BranchId.for_height_go p h l = BranchId.Sprout) ∨
      (∃ i : Fin l.length, p.is_nu_active (l.get i) h = true ∧
        (∀ j : Fin l.length, j < i → p.is_nu_active (l.get j) h = false) ∧
        BranchId.for_height_go p h l = (l.get i).branch_id) := by
  intro l
  induction l with
  | nil => exact Or.inl ⟨by simp, rfl⟩
  | cons nu rest ih =>
      by_cases hact : p.is_nu_active nu h = true
      · refine Or.inr ⟨⟨0, by simp⟩, by simpa using hact, ?_, ?_⟩
        · intro j hj
          exact absurd hj (by simp [Fin.lt_def])
        · simp [BranchId.for_height_go, hact]
      · have hact' : p.is_nu_active nu h = false := by
          simpa using hact
        rcases ih with ⟨hall, heq⟩ | ⟨i, hiact, hbef, heq⟩
        · refine Or.inl ⟨?_, by simp [BranchId.for_height_go, hact', heq]⟩
          intro nu' hmem
          rcases List.mem_cons.mp hmem with rfl | hmem'
          · exact hact'
          · exact hall nu' hmem'
        · refine Or.inr ⟨i.succ, by simpa using hiact, ?_,
            by simp [BranchId.for_height_go, hact', heq]⟩
          intro j hj
          rcases j with ⟨jv, hjlt⟩
          match jv, hjlt with
          | 0, _ => exact hact'
          | Nat.succ k, hk =>
              have hk' : k < rest.length := by
                simpa using hk
              have hki : (⟨k, hk'⟩ : Fin rest.length) < i := by
                simp only [Fin.lt_def] at hj ⊢
                simpa using hj
              simpa using hbef ⟨k, hk'⟩ hki

/-- C1: for every network parameters value and every height `h`,
`BranchId::for_height` returns the branch id of the most-recent upgrade in
`UPGRADES_IN_ORDER` whose activation height is defined and at most `h`, and
the baseline epoch `Sprout` when no upgrade is active; on the production
main network, height 0 resolves to `Sprout`, 419199 to `Overwinter`,
419200 to `Sapling`, and 570000 to `Ycash`. -/
theorem for_height_most_recent_active :
    (∀ (p : Network) (h : Nat),
      ((∀ nu ∈ UPGRADES_IN_ORDER, ∀ a, p.activation_height nu = some a → ¬ a ≤ h) ∧
        BranchId.for_height p h = BranchId.Sprout) ∨
      (∃ i : Fin UPGRADES_IN_ORDER.length,
        (∃ a, p.activation_height (UPGRADES_IN_ORDER.get i) = some a ∧ a ≤ h) ∧
        (∀ j : Fin UPGRADES_IN_ORDER.length, i < j →
          ∀ a, p.activation_height (UPGRADES_IN_ORDER.get j) = some a → ¬ a ≤ h) ∧
        BranchId.for_height p h = (UPGRADES_IN_ORDER.get i).branch_id)) ∧
    BranchId.for_height .MainNetwork 0 = .Sprout ∧
    BranchId.for_height .MainNetwork 419199 = .Overwinter ∧
    BranchId.for_height .MainNetwork 419200 = .Sapling ∧
    BranchId.for_height .MainNetwork 570000 = .Ycash := by
  refine ⟨?_, by decide, by decide, by decide, by decide⟩
  intro p h
  rcases for_height_go_first_active p h UPGRADES_IN_ORDER.reverse with
    ⟨hall, heq⟩ | ⟨i, hiact, hbef, heq⟩
  · refine Or.inl ⟨?_, heq⟩
    intro nu hmem a hsome hle
    exact (is_nu_active_eq_false_iff p nu h).mp
      (hall nu (List.mem_reverse.mpr hmem)) a hsome hle
  · have h6 : UPGRADES_IN_ORDER.length = 6 := rfl
    have h6r : UPGRADES_IN_ORDER.reverse.length = 6 := rfl
    have hil : i.val < 6 := h6r ▸ i.isLt
    have hi' : 5 - i.val < UPGRADES_IN_ORDER.length := by omega
    have hgets : UPGRADES_IN_ORDER.get ⟨5 - i.val, hi'⟩ =
        UPGRADES_IN_ORDER.reverse.get i := by
      rcases i with ⟨iv, hivlt⟩
      have hiv : iv < 6 := h6r ▸ hivlt
      interval_cases iv <;> rfl
    refine Or.inr ⟨⟨5 - i.val, hi'⟩, ?_, ?_, ?_⟩
    · rw [hgets]
      exact (is_nu_active_iff p _ h).mp hiact
    · intro j hj a hsome hle
      have hjl : j.val < 6 := h6 ▸ j.isLt
      have hjr : 5 - j.val < UPGRADES_IN_ORDER.reverse.length := by omega
      have hlt : (⟨5 - j.val, hjr⟩ : Fin UPGRADES_IN_ORDER.reverse.length) < i := by
        simp only [Fin.lt_def] at hj ⊢
        omega
      have hget2 : UPGRADES_IN_ORDER.reverse.get ⟨5 - j.val, hjr⟩ =
          UPGRADES_IN_ORDER.get j := by
        rcases j with ⟨jv, hjvlt⟩
        have hjv : jv < 6 := h6 ▸ hjvlt
        interval_cases jv <;> rfl
      have hinact := hbef ⟨5 - j.val, hjr⟩ hlt
      rw [hget2] at hinact
      exact (is_nu_active_eq_false_iff p _ h).mp hinact a hsome hle
    · rw [hgets]
      exact heq

/-- C6: the `BranchId` to `u32` wire mapping is a bijection over the defined
variants: decoding the encoding of every variant yields the variant back,
every successful decoding inverts the encoding, decoding any value outside
the fixed table fails with the unknown-branch-id error, and in particular
decoding the value 1 fails. -/
theorem branch_id_u32_bijection :
    (∀ b : BranchId, BranchId.try_from_u32 (BranchId.to_u32 b) = .ok b) ∧
    (∀ (v : Nat) (b : BranchId),
      BranchId.try_from_u32 v = .ok b → BranchId.to_u32 b = v) ∧
    (∀ v : Nat, (∀ b : BranchId, BranchId.to_u32 b ≠ v) →
      BranchId.try_from_u32 v = .error "Unknown consensus branch ID") ∧
    BranchId.try_from_u32 1 = .error "Unknown consensus branch ID" := by
  refine ⟨by intro b; cases b <;> rfl, ?_, ?_, rfl⟩
  · intro v b
    simp only [BranchId.try_from_u32]
    split_ifs with h0 h1 h2 h3 h4 h5 h6 <;>
      first
        | (intro hok
           cases hok
           simp [BranchId.to_u32]
           omega)
        | (intro hok; cases hok)
  · intro v hv
    simp only [BranchId.try_from_u32]
    split_ifs with h0 h1 h2 h3 h4 h5 h6
    · exact absurd h0.symm (hv .Sprout)
    · exact absurd h1.symm (hv .Overwinter)
    · exact absurd h2.symm (hv .Sapling)
    · exact absurd h3.symm (hv .Ycash)
    · exact absurd h4.symm (hv .Blossom)
    · exact absurd h5.symm (hv .Heartwood)
    · exact absurd h6.symm (hv .Canopy)
    · rfl

/-- C6 witness: the third conjunct applied at the undefined wire value 1. -/
theorem branch_id_u32_bijection_witness :
    BranchId.try_from_u32 1 = .error "Unknown consensus branch ID" :=
  branch_id_u32_bijection.2.2.1 1 (by intro b; cases b <;> decide)

/-- C7: for each network, the activation heights assigned to the upgrades,
taken in the order of `UPGRADES_IN_ORDER`, are strictly increasing whenever
both neighboring heights are defined. -/
theorem activation_heights_strictly_increasing :
    ∀ (p : Network) (i a b : Nat),
      (UPGRADES_IN_ORDER.map (p.activation_height))[i]? = some (some a) →
      (UPGRADES_IN_ORDER.map (p.activation_height))[i + 1]? = some (some b) →
      a < b := by
  intro p i a b h1 h2
  have hlen : (UPGRADES_IN_ORDER.map (p.activation_height)).length = 6 := by
    cases p <;> rfl
  have hi : i + 1 < 6 := by
    rcases List.getElem?_eq_some.mp h2 with ⟨hlt, _⟩
    omega
  have hub : i < 5 := by omega
  have hlb : 0 ≤ i := by omega
  cases p <;> interval_cases i <;>
    (simp_all [UPGRADES_IN_ORDER, Network.activation_height,
      MainNetwork.activation_height, TestNetwork.activation_height]
     omega)

/-- C7 witness: the main-network Overwinter and Sapling heights are both
defined and ordered. -/
theorem activation_heights_strictly_increasing_witness :
    (UPGRADES_IN_ORDER.map (Network.MainNetwork.activation_height))[0]? =
        some (some 347500) ∧
    (347500 : Nat) < 419200 :=
  ⟨by decide,
    activation_heights_strictly_increasing .MainNetwork 0 347500 419200
      (by decide) (by decide)⟩

/-- C9: height subtraction by an unsigned delta is precondition-guarded:
`h - d` panics (embedded as `none`) exactly when `d` exceeds `h`, and
otherwise returns the height `h - d`. -/
theorem height_sub_guarded :
    ∀ h d : Nat,
      (BlockHeight.sub_u32 h d = none ↔ h < d) ∧
      (d ≤ h → BlockHeight.sub_u32 h d = some (h - d)) := by
  intro h d
  unfold BlockHeight.sub_u32
  split_ifs with hgt
  · exact ⟨iff_of_true rfl hgt, fun hle => absurd hgt (by omega)⟩
  · exact ⟨iff_of_false (by simp) (by omega), fun _ => rfl⟩

/-- C9 witness: subtracting 3 from height 5 succeeds with height 2. -/
theorem height_sub_guarded_witness :
    (3 : Nat) ≤ 5 ∧ BlockHeight.sub_u32 5 3 = some 2 :=
  ⟨by decide, (height_sub_guarded 5 3).2 (by decide)⟩

/-! ## Theorems: Sapling verifier -/

/-- When the small-order guard passes, `check_spend` leaves behind the
context whose running sum has the value commitment added, whatever the
signature and proof checks do. -/
theorem check_spend_fst {Point Sig Prf VK : Type} [AddCommGroup Point]
    (ops : SaplingOps Point Sig Prf VK)
    (ctx : SaplingVerificationContext Point)
    (cv : Point) (anchor : BlsScalar) (nullifier : List Nat) (rk : Point)
    (sighash_value : List Nat) (spend_auth_sig : Sig) (zkproof : Prf)
    (vk : VK)
    (hguard : (ops.is_small_order cv || ops.is_small_order rk) = false) :
    (check_spend ops ctx cv anchor nullifier rk sighash_value spend_auth_sig
      zkproof vk).1 = { ctx with cv_sum := ctx.cv_sum + cv } := by
  unfold check_spend
  rw [if_neg (by simp [hguard])]
  dsimp only
  split
  · rfl
  · split <;> rfl

/-- When the small-order guard passes, `check_output` leaves behind the
context whose running sum has the value commitment subtracted, whatever the
proof check does. -/
theorem check_output_fst {Point Sig Prf VK : Type} [AddCommGroup Point]
    (ops : SaplingOps Point Sig Prf VK)
    (ctx : SaplingVerificationContext Point)
    (cv : Point) (cmu : BlsScalar) (epk : Point) (zkproof : Prf) (vk : VK)
    (hguard : (ops.is_small_order cv || ops.is_small_order epk) = false) :
    (check_output ops ctx cv cmu epk zkproof vk).1 =
      { ctx with cv_sum := ctx.cv_sum - cv } := by
  unfold check_output
  rw [if_neg (by simp [hguard])]

/-- One guard-passing call adds its signed value commitment to the running
sum and preserves the malleability flag. -/
theorem stepCall_fst {Point Sig Prf VK : Type} [AddCommGroup Point]
    (ops : SaplingOps Point Sig Prf VK)
    (ctx : SaplingVerificationContext Point)
    (c : SaplingCall Point Sig Prf VK) (hc : guardOk ops c = true) :
    (stepCall ops ctx c).1 = { ctx with cv_sum := ctx.cv_sum + signedCv c } := by
  cases c with
  | spend cv anchor nf rk sh sg pf vk =>
      have hguard : (ops.is_small_order cv || ops.is_small_order rk) = false := by
        simpa [guardOk] using hc
      simpa [stepCall, signedCv] using
        check_spend_fst ops ctx cv anchor nf rk sh sg pf vk hguard
  | output cv cmu epk pf vk =>
      have hguard : (ops.is_small_order cv || ops.is_small_order epk) = false := by
        simpa [guardOk] using hc
      simp [stepCall, signedCv, check_output_fst ops ctx cv cmu epk pf vk hguard,
        sub_eq_add_neg]
  | finalCheck vb sh sg =>
      simp [stepCall, signedCv]

/-- A sequence of guard-passing calls adds the sum of the signed value
commitments to the running sum and preserves the malleability flag. -/
theorem runCalls_fst {Point Sig Prf VK : Type} [AddCommGroup Point]
    (ops : SaplingOps Point Sig Prf VK) :
    ∀ (calls : List (SaplingCall Point Sig Prf VK))
      (ctx : SaplingVerificationContext Point),
      (∀ c ∈ calls, guardOk ops c = true) →
      (runCalls ops ctx calls).1 =
        { ctx with cv_sum := ctx.cv_sum + (calls.map signedCv).sum } := by
  intro calls
  induction calls with
  | nil => intro ctx _; simp [runCalls]
  | cons c cs ih =>
      intro ctx h
      have hc := h c (List.mem_cons_self c cs)
      have hcs : ∀ x ∈ cs, guardOk ops x = true := fun x hx =>
        h x (List.mem_cons_of_mem c hx)
      simp only [runCalls]
      rw [stepCall_fst ops ctx c hc, ih _ hcs]
      simp [add_assoc]

/-- The signed value-commitment sum of a call list equals the sum of its
spend commitments minus the sum of its output commitments. -/
theorem map_signedCv_sum {Point Sig Prf VK : Type} [AddCommGroup Point] :
    ∀ calls : List (SaplingCall Point Sig Prf VK),
      (calls.map signedCv).sum =
        (spendCvs calls).sum - (outputCvs calls).sum := by
  intro calls
  induction calls with
  | nil => simp [spendCvs, outputCvs]
  | cons c cs ih =>
      cases c <;> simp [spendCvs, outputCvs, signedCv, ih] <;> abel

/-- C2: for every interleaved call sequence whose value commitments all pass
the small-order guard, the running sum starting from the identity equals the
sum of the spend commitments minus the sum of the output commitments, and
permuting the calls changes neither the final context nor the outcome of
`final_check` for fixed `final_check` arguments. -/
theorem accumulator_additive_and_perm_invariant {Point Sig Prf VK : Type}
    [AddCommGroup Point] (ops : SaplingOps Point Sig Prf VK) (zip : Bool)
    (calls calls' : List (SaplingCall Point Sig Prf VK))
    (hguard : ∀ c ∈ calls, guardOk ops c = true)
    (hperm : calls.Perm calls') :
    (runCalls ops (SaplingVerificationContext.new Point zip) calls).1.cv_sum =
      (spendCvs calls).sum - (outputCvs calls).sum ∧
    (runCalls ops (SaplingVerificationContext.new Point zip) calls').1 =
      (runCalls ops (SaplingVerificationContext.new Point zip) calls).1 ∧
    ∀ (vb : Int) (sh : List Nat) (sg : Sig),
      final_check ops
          (runCalls ops (SaplingVerificationContext.new Point zip) calls').1
          vb sh sg =
        final_check ops
          (runCalls ops (SaplingVerificationContext.new Point zip) calls).1
          vb sh sg := by
  have hguard' : ∀ c ∈ calls', guardOk ops c = true := fun c hc =>
    hguard c (hperm.mem_iff.mpr hc)
  have h1 := runCalls_fst ops calls (SaplingVerificationContext.new Point zip)
    hguard
  have h2 := runCalls_fst ops calls' (SaplingVerificationContext.new Point zip)
    hguard'
  have hsum : (calls'.map signedCv).sum = (calls.map signedCv).sum :=
    ((hperm.map signedCv).sum_eq).symm
  have hstates :
      (runCalls ops (SaplingVerificationContext.new Point zip) calls').1 =
        (runCalls ops (SaplingVerificationContext.new Point zip) calls).1 := by
    rw [h1, h2, hsum]
  refine ⟨?_, hstates, fun vb sh sg => by rw [hstates]⟩
  rw [h1, map_signedCv_sum]
  simp [SaplingVerificationContext.new]

/-- C2 witness: the two-call sequence `wCallsA` and its swap `wCallsB`, over
the integer instantiation, with every guard passing. -/
theorem accumulator_additive_and_perm_invariant_witness :
    (∀ c ∈ wCallsA, guardOk (intOps true true) c = true) ∧
    (runCalls (intOps true true) (SaplingVerificationContext.new Int true)
        wCallsA).1.cv_sum =
      (spendCvs wCallsA).sum - (outputCvs wCallsA).sum :=
  ⟨by decide,
    (accumulator_additive_and_perm_invariant (intOps true true) true
      wCallsA wCallsB (by decide) (List.Perm.swap _ _ _)).1⟩

/-- C3: when the small-order guard passes, the value commitment is folded
into the running sum whatever the later signature and proof checks return,
so the sum is updated even when the call returns false. -/
theorem commitment_accumulated_despite_failure :
    (∀ {Point Sig Prf VK : Type} [AddCommGroup Point]
      (ops : SaplingOps Point Sig Prf VK)
      (ctx : SaplingVerificationContext Point)
      (cv : Point) (anchor : BlsScalar) (nullifier : List Nat) (rk : Point)
      (sighash_value : List Nat) (spend_auth_sig : Sig) (zkproof : Prf)
      (vk : VK),
      (ops.is_small_order cv || ops.is_small_order rk) = false →
      (check_spend ops ctx cv anchor nullifier rk sighash_value
        spend_auth_sig zkproof vk).1 =
        { ctx with cv_sum := ctx.cv_sum + cv }) ∧
    (∀ {Point Sig Prf VK : Type} [AddCommGroup Point]
      (ops : SaplingOps Point Sig Prf VK)
      (ctx : SaplingVerificationContext Point)
      (cv : Point) (cmu : BlsScalar) (epk : Point) (zkproof : Prf) (vk : VK),
      (ops.is_small_order cv || ops.is_small_order epk) = false →
      (check_output ops ctx cv cmu epk zkproof vk).1 =
        { ctx with cv_sum := ctx.cv_sum - cv }) :=
  ⟨fun ops ctx cv anchor nf rk sh sg pf vk h =>
      check_spend_fst ops ctx cv anchor nf rk sh sg pf vk h,
    fun ops ctx cv cmu epk pf vk h =>
      check_output_fst ops ctx cv cmu epk pf vk h⟩

/-- C3 witness: with a signature verifier that always fails, a spend call on
commitment 2 returns false yet its context has the commitment added. -/
theorem commitment_accumulated_despite_failure_witness :
    (check_spend (intOps false true)
        (SaplingVerificationContext.new Int true) 2 0 [] 3 [] () () ()).2 =
      some false ∧
    (check_spend (intOps false true)
        (SaplingVerificationContext.new Int true) 2 0 [] 3 [] () () ()).1 =
      { SaplingVerificationContext.new Int true with cv_sum := 0 + 2 } :=
  ⟨by decide,
    commitment_accumulated_despite_failure.1 (intOps false true)
      (SaplingVerificationContext.new Int true) 2 0 [] 3 [] () () ()
      (by decide)⟩

/-- C4: when the value commitment or key is small-order, the call returns
false without faulting and the context is unchanged. -/
theorem small_order_rejected_no_state_change :
    (∀ {Point Sig Prf VK : Type} [AddCommGroup Point]
      (ops : SaplingOps Point Sig Prf VK)
      (ctx : SaplingVerificationContext Point)
      (cv : Point) (anchor : BlsScalar) (nullifier : List Nat) (rk : Point)
      (sighash_value : List Nat) (spend_auth_sig : Sig) (zkproof : Prf)
      (vk : VK),
      (ops.is_small_order cv || ops.is_small_order rk) = true →
      check_spend ops ctx cv anchor nullifier rk sighash_value spend_auth_sig
        zkproof vk = (ctx, some false)) ∧
    (∀ {Point Sig Prf VK : Type} [AddCommGroup Point]
      (ops : SaplingOps Point Sig Prf VK)
      (ctx : SaplingVerificationContext Point)
      (cv : Point) (cmu : BlsScalar) (epk : Point) (zkproof : Prf) (vk : VK),
      (ops.is_small_order cv || ops.is_small_order epk) = true →
      check_output ops ctx cv cmu epk zkproof vk = (ctx, false)) := by
  constructor
  · intro Point Sig Prf VK inst ops ctx cv anchor nf rk sh sg pf vk h
    unfold check_spend
    rw [if_pos h]
  · intro Point Sig Prf VK inst ops ctx cv cmu epk pf vk h
    unfold check_output
    rw [if_pos h]

/-- C4 witness: the identity point (the small-order point `0` of the integer
instantiation) supplied as a spend value commitment is rejected with the
context untouched. -/
theorem small_order_rejected_no_state_change_witness :
    check_spend (intOps true true) (SaplingVerificationContext.new Int true)
        0 0 [] 3 [] () () () =
      (SaplingVerificationContext.new Int true, some false) :=
  small_order_rejected_no_state_change.1 (intOps true true)
    (SaplingVerificationContext.new Int true) 0 0 [] 3 [] () () () (by decide)

/-- C5: a declared value balance outside the representable signed range
makes `final_check` return false, for every choice of the abstract
collaborators: in particular no binding-signature verification can influence
the outcome. -/
theorem out_of_range_balance_final_check_false {Point Sig Prf VK : Type}
    [AddCommGroup Point] (ops : SaplingOps Point Sig Prf VK)
    (ctx : SaplingVerificationContext Point) (vb : Int)
    (sh : List Nat) (sg : Sig)
    (hrange : 2 ^ 63 - 1 < vb.natAbs) :
    final_check ops ctx vb sh sg = false := by
  unfold final_check compute_value_balance
  rw [if_neg (by omega)]

/-- C5 witness: the balance `2 ^ 63` is outside the representable range and
is rejected. -/
theorem out_of_range_balance_final_check_false_witness :
    2 ^ 63 - 1 < (9223372036854775808 : Int).natAbs ∧
    final_check (intOps true true) (SaplingVerificationContext.new Int true)
      9223372036854775808 [] () = false :=
  ⟨by decide,
    out_of_range_balance_final_check_false (intOps true true)
      (SaplingVerificationContext.new Int true) 9223372036854775808 [] ()
      (by decide)⟩

/-- The little-endian bit expansion of a byte list has eight bits per byte. -/
theorem bytes_to_bits_le_length (bytes : List Nat) :
    (bytes_to_bits_le bytes).length = 8 * bytes.length := by
  unfold bytes_to_bits_le
  induction bytes with
  | nil => simp
  | cons b bs ih =>
      simp_all
      omega

/-- Chunking a 256-element list by 254 yields exactly two chunks. -/
theorem chunksOf_two {α : Type} (l : List α) (hl : l.length = 256) :
    (chunksOf 254 l).length = 2 := by
  unfold chunksOf
  rw [if_neg (by simp [hl])]
  unfold chunksOf
  rw [if_neg (by simp [hl])]
  unfold chunksOf
  rw [if_pos (by simp [hl])]
  rfl

/-- The multipacking of a 32-byte input has exactly two field elements. -/
theorem multipack_32_bytes_length (nf : List Nat) (h : nf.length = 32) :
    (compute_multipacking (bytes_to_bits_le nf)).length = 2 := by
  unfold compute_multipacking
  rw [List.length_map]
  exact chunksOf_two _ (by rw [bytes_to_bits_le_length, h])

/-- C8: for every 32-byte nullifier the little-endian bit-packing produces
exactly two field elements, so the packed-length assertion in `check_spend`
(embedded as the `none` result) never fires. -/
theorem nullifier_packs_to_two_scalars :
    ∀ nullifier : List Nat, nullifier.length = 32 →
      (compute_multipacking (bytes_to_bits_le nullifier)).length = 2 ∧
      ∀ {Point Sig Prf VK : Type} [inst : AddCommGroup Point]
        (ops : SaplingOps Point Sig Prf VK)
        (ctx : SaplingVerificationContext Point)
        (cv : Point) (anchor : BlsScalar) (rk : Point)
        (sighash_value : List Nat) (spend_auth_sig : Sig) (zkproof : Prf)
        (vk : VK),
        (check_spend ops ctx cv anchor nullifier rk sighash_value
          spend_auth_sig zkproof vk).2 ≠ none := by
  intro nf hlen
  have hpack := multipack_32_bytes_length nf hlen
  refine ⟨hpack, ?_⟩
  intro Point Sig Prf VK inst ops ctx cv anchor rk sh sg pf vk
  obtain ⟨a, b, hab⟩ := List.length_eq_two.mp hpack
  unfold check_spend
  rw [hab]
  split_ifs <;> simp
  all_goals (split_ifs <;> simp)

/-- C8 witness: the all-zero nullifier has 32 bytes and packs into two
field elements. -/
theorem nullifier_packs_to_two_scalars_witness :
    (List.replicate 32 0).length = 32 ∧
    (compute_multipacking (bytes_to_bits_le (List.replicate 32 0))).length = 2 :=
  ⟨by decide, (nullifier_packs_to_two_scalars (List.replicate 32 0) (by decide)).1⟩

/-- C10: `final_check` mutates nothing: the context after a final-check
call equals the context before it, later calls run as if it had not
happened, and repeating it with the same arguments returns the same
boolean; nothing enforces a terminal state or prevents reuse. -/
theorem final_check_const_context_reusable {Point Sig Prf VK : Type}
    [AddCommGroup Point] (ops : SaplingOps Point Sig Prf VK)
    (ctx : SaplingVerificationContext Point) (vb : Int) (sh : List Nat)
    (sg : Sig) (rest : List (SaplingCall Point Sig Prf VK)) :
    (stepCall ops ctx (.finalCheck vb sh sg)).1 = ctx ∧
    (runCalls ops ctx (.finalCheck vb sh sg :: rest)).1 =
      (runCalls ops ctx rest).1 ∧
    runCalls ops ctx [.finalCheck vb sh sg, .finalCheck vb sh sg] =
      (ctx, [some (final_check ops ctx vb sh sg),
        some (final_check ops ctx vb sh sg)]) := by
  refine ⟨rfl, ?_, ?_⟩ <;> simp [runCalls, stepCall]
